import Mathlib

/-!
Verification development for the z-wf-starter DOM utility library.

The repository consists of three small modules:
* set-style.ts: two variants of setStyle, which apply an inline StyleMap to an
  element and return a revert closure restoring the captured previous values;
* get-html-element.ts: getHtmlElement and getMultipleHtmlElements, thin
  querySelector wrappers with configurable not-found logging;
* get-active-script.ts: getActiveScript, which builds a selector from the
  current module URL and delegates to getHtmlElement.

The host environment (CSSOM style store, querySelector, console) is an external
collaborator; it is modelled here at the abstraction level the code relies on:
an inline style declaration block is an ordered association list from property
names to non-empty string values, reading an absent property yields the empty
string, and writing the empty string removes the declaration.
-/

set_option autoImplicit false

namespace ZWfStarter

/-- Inline style declaration block of an element: an ordered list of
(property name, value) pairs.  Models the host CSSStyleDeclaration at the
abstraction the repository code uses. -/
abbrev Style := List (String × String)

/-- First value stored under a key, if any.  Models reading a declaration from
the host style store. -/
def lookupProp : Style → String → Option String
  | [], _ => none
  | p :: rest, k => if p.1 = k then some p.2 else lookupProp rest k

/-- Host CSSStyleDeclaration.getPropertyValue: the stored value, or the empty
string when the property is absent. -/
def getPropertyValue (st : Style) (k : String) : String :=
  (lookupProp st k).getD ""

/-- Host CSSStyleDeclaration.removeProperty: drop every declaration of the
key (a well-formed block holds at most one). -/
def removeProperty : Style → String → Style
  | [], _ => []
  | p :: rest, k => if p.1 = k then removeProperty rest k else p :: removeProperty rest k

/-- Ordered record write, shared by the host set-a-CSS-declaration step and by
JS object property assignment: update the value in place when the key is
present, append at the end otherwise. -/
def recordSet (st : Style) (k v : String) : Style :=
  if (lookupProp st k).isSome then
    st.map (fun p => if p.1 = k then (k, v) else p)
  else
    st ++ [(k, v)]

/-- Host style IDL attribute setter (element.style[key] = v, also what
Object.assign invokes per key): the empty string removes the declaration,
any other value is stored. -/
def idlStyleSet (st : Style) (k v : String) : Style :=
  if v = "" then removeProperty st k else recordSet st k v

/-- Host CSSStyleDeclaration.setProperty with a possibly-null value argument:
null is coerced to the empty string (LegacyNullToEmptyString), and an empty
value removes the declaration. -/
def setPropertyJS (st : Style) (k : String) (v : Option String) : Style :=
  if v.getD "" = "" then removeProperty st k else recordSet st k (v.getD "")

/-- The JS expression (v || null) for a string v: null when v is falsy
(the empty string), v otherwise. -/
def jsOrNull (v : String) : Option String :=
  if v = "" then none else some v

/-- The JS expression (v || "") for a string v. -/
def jsOrEmpty (v : String) : String :=
  if v = "" then "" else v

/-- Loop body of the string-keyed setStyle variant (set-style.ts, first copy):
for each key of the styles record, first record
prevValues[key] = element.style.getPropertyValue(key), then run
element.style.setProperty(key, styles[key] || null). -/
def setStyleGo : Style → List (String × String) → List (String × String) →
    Style × List (String × String)
  | element, [], prevValues => (element, prevValues)
  | element, (key, value) :: rest, prevValues =>
      setStyleGo (setPropertyJS element key (jsOrNull value)) rest
        (recordSet prevValues key (getPropertyValue element key))

/-- String-keyed setStyle variant (set-style.ts, first copy).  Returns the
final style block together with the prevValues record captured by the revert
closure. -/
def setStyle (element : Style) (styles : List (String × String)) :
    Style × List (String × String) :=
  setStyleGo element styles []

/-- Loop body of the typed (CSSProperties-keyed) setStyle variant
(set-style.ts, second copy): capture is identical, the write is
element.style[key] = styles[key] || "". -/
def setStyleTypedGo : Style → List (String × String) → List (String × String) →
    Style × List (String × String)
  | element, [], prevValues => (element, prevValues)
  | element, (key, value) :: rest, prevValues =>
      setStyleTypedGo (idlStyleSet element key (jsOrEmpty value)) rest
        (recordSet prevValues key (getPropertyValue element key))

/-- Typed setStyle variant (set-style.ts, second copy). -/
def setStyleTyped (element : Style) (styles : List (String × String)) :
    Style × List (String × String) :=
  setStyleTypedGo element styles []

/-- The revert closure body, Object.assign(element.style, prevValues): each
captured pair is written through the style IDL attribute setter, in record
order. -/
def objectAssignStyle (element : Style) (prevValues : List (String × String)) : Style :=
  prevValues.foldl (fun acc p => idlStyleSet acc p.1 p.2) element

/-- Last value a record write list assigns to a key, if any. -/
def lastWrite : List (String × String) → String → Option String
  | [], _ => none
  | p :: rest, k =>
      match lastWrite rest k with
      | some v => some v
      | none => if p.1 = k then some p.2 else none

/-- A style block is well formed when no stored value is the empty string
(the host store never holds empty declarations). -/
abbrev StyleWF (st : Style) : Prop := ∀ p ∈ st, p.2 ≠ ""

/-- Log level option of getHtmlElement and getMultipleHtmlElements
(get-html-element.ts): the string literals "debug" and "error", or the
boolean false which disables logging. -/
inductive LogLevel where
  | debug
  | error
  | disabled
  deriving DecidableEq, Repr

/-- Console channel a diagnostic is written to (console.debug or
console.error). -/
inductive ConsoleMethod where
  | debug
  | error
  deriving DecidableEq, Repr

/-- One emitted console call: the channel and the formatted message. -/
structure ConsoleCall where
  method : ConsoleMethod
  message : String
  deriving DecidableEq, Repr

/-- The ternary (log === "debug" ? console.debug : console.error); in the
source it is evaluated only after the disabled case has already returned. -/
def consoleMethodFor (log : LogLevel) : ConsoleMethod :=
  if log = LogLevel.debug then ConsoleMethod.debug else ConsoleMethod.error

/-- The log.toUpperCase() label of an enabled log level. -/
def logLabel (log : LogLevel) : String :=
  if log = LogLevel.debug then "DEBUG" else "ERROR"

/-- The template suffix choosing between the scoped and the document wording,
driven by whether a parent scope element was supplied. -/
def scopeDescription (parentSupplied : Bool) : String :=
  if parentSupplied then "the specified parent element:" else "the document."

/-- Diagnostic text getHtmlElement logs for a missing element. -/
def elementNotFoundMessage (log : LogLevel) (selector : String)
    (parentSupplied : Bool) : String :=
  logLabel log ++ ": Element with selector \"" ++ selector ++ "\" not found in " ++
    scopeDescription parentSupplied

/-- Diagnostic text getMultipleHtmlElements logs when no element matches. -/
def elementsNotFoundMessage (log : LogLevel) (selector : String)
    (parentSupplied : Bool) : String :=
  logLabel log ++ ": No elements found with selector \"" ++ selector ++ "\" in " ++
    scopeDescription parentSupplied

/-- getHtmlElement (get-html-element.ts).  The host querySelector call on the
chosen scope is passed in as queryResult: Except.error is a thrown query
failure (malformed selector), Except.ok none a not-found result, Except.ok
(some el) a match.  The log argument is the optional log property of the
props record; none means the property was omitted and the destructuring
default debug applies.  The result pairs the return value of the function
with the list of console calls it emitted. -/
def getHtmlElement {TElement Err : Type} (queryResult : Except Err (Option TElement))
    (selector : String) (parentSupplied : Bool) (log : Option LogLevel) :
    Except Err (Option TElement × List ConsoleCall) :=
  let logLevel := log.getD LogLevel.debug
  match queryResult with
  | Except.error e => Except.error e
  | Except.ok targetElement =>
      match targetElement with
      | none =>
          if logLevel = LogLevel.disabled then Except.ok (none, [])
          else
            Except.ok (none, [⟨consoleMethodFor logLevel,
              elementNotFoundMessage logLevel selector parentSupplied⟩])
      | some el => Except.ok (some el, [])

/-- getMultipleHtmlElements (get-html-element.ts).  queryResult is
Array.from applied to the host querySelectorAll result (the matching nodes in
document order), or a thrown query failure. -/
def getMultipleHtmlElements {TElement Err : Type} (queryResult : Except Err (List TElement))
    (selector : String) (parentSupplied : Bool) (log : Option LogLevel) :
    Except Err (Option (List TElement) × List ConsoleCall) :=
  let logLevel := log.getD LogLevel.debug
  match queryResult with
  | Except.error e => Except.error e
  | Except.ok targetElements =>
      if targetElements.length = 0 then
        if logLevel = LogLevel.disabled then Except.ok (none, [])
        else
          Except.ok (none, [⟨consoleMethodFor logLevel,
            elementsNotFoundMessage logLevel selector parentSupplied⟩])
      else Except.ok (some targetElements, [])

/-- A script element of the host document, identified by the value of its
src attribute. -/
structure ScriptEl where
  src : String
  deriving DecidableEq, Repr

/-- Body of a double-quoted CSS string token (CSS Syntax Level 3), starting
just after the opening quote: a backslash escapes the following code point,
an unescaped double quote closes the token.  Returns the decoded content and
the remainder after the closing quote, or none when the token is
unterminated.  Two simplifications against the full grammar, both outside
the inputs any theorem relies on: hex escapes decode as the escaped code
point itself, and an unescaped newline (a bad-string parse error in CSS, and
impossible in a serialized module URL) is accepted as content. -/
def cssStringBody : List Char → Option (List Char × List Char)
  | [] => none
  | '"' :: rest => some ([], rest)
  | '\\' :: [] => none
  | '\\' :: e :: rest2 => Option.map (fun p => (e :: p.1, p.2)) (cssStringBody rest2)
  | c :: rest => Option.map (fun p => (c :: p.1, p.2)) (cssStringBody rest)

/-- The selector template of getActiveScript (get-active-script.ts):
script[src="URL"], built by raw template-literal interpolation, with no
escaping applied to the interpolated module URL. -/
def activeScriptSelector (currentModuleUrl : String) : String :=
  "script[src=\"" ++ currentModuleUrl ++ "\"]"

/-- Recognizer for the exact selector shape script[src="<string>"]: the
fixed selector head, one complete string token, then the closing bracket
ending the selector.  A some verdict returns the attribute value the
selector matches against and agrees with the host CSS grammar.  A none
verdict does NOT imply the host rejects the selector: the real grammar
allows continuations this shape excludes (an attribute modifier, further
compound parts, a comma-joined selector list), so no theorem relies on the
none verdict. -/
def parseScriptSrcSelector (sel : String) : Option String :=
  if sel.data.take "script[src=\"".data.length = "script[src=\"".data then
    match cssStringBody (sel.data.drop "script[src=\"".data.length) with
    | some (content, rest) => if rest = [']'] then some (String.mk content) else none
    | none => none
  else none

/-- Model of the host querySelector on the selector shape used by
getActiveScript: a selector the recognizer accepts returns the first script
element, in document order, whose src attribute equals the string value of
the selector exactly; the error arm stands for the throw on a selector the
host rejects.  Because the recognizer is stricter than the host grammar, the
error arm over-approximates the throwing inputs, and no theorem relies on
it: theorems about query failure take the host outcome as a parameter
instead (getActiveScriptWith). -/
def querySelectorScript (doc : List ScriptEl) (sel : String) :
    Except Unit (Option ScriptEl) :=
  match parseScriptSrcSelector sel with
  | some url => Except.ok (doc.find? (fun s => s.src == url))
  | none => Except.error ()

/-- getActiveScript (get-active-script.ts): reads the current module URL
(import.meta.url, a host input), builds the selector and delegates to
getHtmlElement passing a props record holding only the selector: no parent,
and no log property, so the destructuring default of the delegate applies.
The doc argument is the host document the query runs against. -/
def getActiveScript (doc : List ScriptEl) (currentModuleUrl : String) :
    Except Unit (Option ScriptEl × List ConsoleCall) :=
  getHtmlElement (querySelectorScript doc (activeScriptSelector currentModuleUrl))
    (activeScriptSelector currentModuleUrl) false none

/-- The body of getActiveScript with the outcome of the host query on the
built selector abstracted into a parameter, in the same style as the finder
embeddings: the delegate call with only the selector prop supplied.
getActiveScript is this applied to the modelled host query. -/
def getActiveScriptWith (queryResult : Except Unit (Option ScriptEl))
    (currentModuleUrl : String) : Except Unit (Option ScriptEl × List ConsoleCall) :=
  getHtmlElement queryResult (activeScriptSelector currentModuleUrl) false none

theorem lookupProp_append (st1 st2 : Style) (k : String) :
    lookupProp (st1 ++ st2) k =
      match lookupProp st1 k with
      | some v => some v
      | none => lookupProp st2 k := by
  induction st1 with
  | nil => simp [lookupProp]
  | cons p rest ih =>
      by_cases h : p.1 = k <;> simp [lookupProp, h, ih]

theorem lookupProp_removeProperty (st : Style) (k k' : String) :
    lookupProp (removeProperty st k) k' =
      if k' = k then none else lookupProp st k' := by
  induction st with
  | nil => simp [removeProperty, lookupProp]
  | cons p rest ih =>
      obtain ⟨a, b⟩ := p
      by_cases h : a = k
      · subst h
        by_cases h' : k' = a
        · subst h'
          simp [removeProperty, lookupProp, ih]
        · have hak : ¬ a = k' := fun hc => h' hc.symm
          simp [removeProperty, lookupProp, h', hak, ih]
      · by_cases hp : a = k'
        · subst hp
          have h' : ¬ a = k := h
          simp [removeProperty, lookupProp, h, ih, h']
        · simp [removeProperty, lookupProp, h, hp, ih]

theorem lookupProp_mapUpdate (st : Style) (k v k' : String) :
    lookupProp (st.map fun p => if p.1 = k then (k, v) else p) k' =
      if k' = k then Option.map (fun _ => v) (lookupProp st k)
      else lookupProp st k' := by
  induction st with
  | nil => simp [lookupProp]
  | cons p rest ih =>
      obtain ⟨a, b⟩ := p
      by_cases h : a = k
      · subst h
        by_cases h' : k' = a
        · subst h'
          simp [lookupProp, ih]
        · have hak : ¬ a = k' := fun hc => h' hc.symm
          simp [lookupProp, h', hak, ih]
      · by_cases hp : a = k'
        · subst hp
          simp [lookupProp, h, ih]
        · simp [lookupProp, h, hp, ih]

theorem lookupProp_recordSet (st : Style) (k v k' : String) :
    lookupProp (recordSet st k v) k' =
      if k' = k then some v else lookupProp st k' := by
  unfold recordSet
  by_cases h : (lookupProp st k).isSome
  · rw [if_pos h, lookupProp_mapUpdate]
    by_cases h' : k' = k
    · obtain ⟨w, hw⟩ := Option.isSome_iff_exists.mp h
      simp [h', hw]
    · simp [h']
  · rw [if_neg h, lookupProp_append]
    have hk : lookupProp st k = none := Option.not_isSome_iff_eq_none.mp h
    by_cases h' : k' = k
    · subst h'
      simp [hk, lookupProp]
    · cases hcase : lookupProp st k' with
      | some w => simp [hcase, h']
      | none =>
          simp only [hcase]
          have hkk : ¬ k = k' := fun hc => h' hc.symm
          simp [lookupProp, h', hkk]

theorem lookupProp_idlStyleSet (st : Style) (k v k' : String) :
    lookupProp (idlStyleSet st k v) k' =
      if k' = k then (if v = "" then none else some v)
      else lookupProp st k' := by
  unfold idlStyleSet
  by_cases hv : v = ""
  · simp [hv, lookupProp_removeProperty]
  · simp [hv, lookupProp_recordSet]

theorem lookupProp_setPropertyJS (st : Style) (k : String) (v : Option String) (k' : String) :
    lookupProp (setPropertyJS st k v) k' =
      if k' = k then (if v.getD "" = "" then none else some (v.getD ""))
      else lookupProp st k' := by
  unfold setPropertyJS
  by_cases hv : v.getD "" = ""
  · simp [hv, lookupProp_removeProperty]
  · simp [hv, lookupProp_recordSet]

theorem lookupProp_mem (st : Style) (k v : String) (h : lookupProp st k = some v) :
    (k, v) ∈ st := by
  induction st with
  | nil => simp [lookupProp] at h
  | cons p rest ih =>
      obtain ⟨a, b⟩ := p
      by_cases hp : a = k
      · subst hp
        simp [lookupProp] at h
        subst h
        exact List.mem_cons_self _ _
      · simp [lookupProp, hp] at h
        exact List.mem_cons_of_mem _ (ih h)

theorem lookupProp_objectAssignStyle (prevValues : List (String × String)) (st : Style)
    (k : String) :
    lookupProp (objectAssignStyle st prevValues) k =
      match lastWrite prevValues k with
      | some v => if v = "" then none else some v
      | none => lookupProp st k := by
  induction prevValues generalizing st with
  | nil => simp [objectAssignStyle, lastWrite]
  | cons p rest ih =>
      have hstep : objectAssignStyle st (p :: rest) =
          objectAssignStyle (idlStyleSet st p.1 p.2) rest := rfl
      rw [hstep, ih]
      cases hcase : lastWrite rest k with
      | some v => simp [lastWrite, hcase]
      | none =>
          simp only [lastWrite, hcase]
          rw [lookupProp_idlStyleSet]
          by_cases h : p.1 = k
          · simp [h]
          · have : ¬ k = p.1 := fun hc => h hc.symm
            simp [h, this]

theorem lookupProp_objectAssignStyle_some (prevValues : List (String × String)) (st : Style)
    (k v : String) (h : lastWrite prevValues k = some v) :
    lookupProp (objectAssignStyle st prevValues) k = if v = "" then none else some v := by
  rw [lookupProp_objectAssignStyle, h]

theorem recordSet_absent (st : Style) (k v : String) (h : lookupProp st k = none) :
    recordSet st k v = st ++ [(k, v)] := by
  unfold recordSet
  simp [h]

theorem lastWrite_eq_none (L : List (String × String)) (k : String)
    (h : k ∉ L.map Prod.fst) : lastWrite L k = none := by
  induction L with
  | nil => rfl
  | cons p rest ih =>
      have h1 : ¬ p.1 = k := fun hc => h (by simp [hc])
      have h2 : k ∉ rest.map Prod.fst := fun hc => h (by simp [hc])
      simp [lastWrite, ih h2, h1]

theorem lastWrite_map_nodup (styles : List (String × String)) (f : String → String) (k : String)
    (hnd : (styles.map Prod.fst).Nodup) (hk : k ∈ styles.map Prod.fst) :
    lastWrite (styles.map fun p => (p.1, f p.1)) k = some (f k) := by
  induction styles with
  | nil => simp at hk
  | cons hd rest ih =>
      obtain ⟨key, value⟩ := hd
      obtain ⟨hnotin, hnd'⟩ := List.nodup_cons.mp (by simpa only [List.map_cons] using hnd)
      by_cases hmem : k ∈ rest.map Prod.fst
      · simp only [List.map_cons, lastWrite]
        rw [ih hnd' hmem]
      · have hkey : k = key := by
          simp only [List.map_cons, List.mem_cons] at hk
          rcases hk with h | h
          · exact h
          · exact absurd h hmem
        subst hkey
        have hnone : lastWrite (rest.map fun p => (p.1, f p.1)) k = none := by
          apply lastWrite_eq_none
          intro hc
          apply hmem
          simpa [List.map_map, Function.comp] using hc
        simp [lastWrite, hnone]

theorem setStyleGo_fst_untouched (styles : List (String × String)) :
    ∀ (element : Style) (prevValues : List (String × String)) (k : String),
      k ∉ styles.map Prod.fst →
      lookupProp (setStyleGo element styles prevValues).1 k = lookupProp element k := by
  induction styles with
  | nil =>
      intro element prevValues k _
      rfl
  | cons hd rest ih =>
      intro element prevValues k hk
      obtain ⟨key, value⟩ := hd
      have hk1 : ¬ k = key := fun hc => hk (by simp [hc])
      have hk2 : k ∉ rest.map Prod.fst := fun hc => hk (by simp [hc])
      simp only [setStyleGo]
      rw [ih _ _ _ hk2, lookupProp_setPropertyJS, if_neg hk1]

theorem setStyleGo_snd_spec (styles : List (String × String)) :
    ∀ (element : Style) (prevValues : List (String × String)),
      (styles.map Prod.fst).Nodup →
      (∀ k, k ∈ styles.map Prod.fst → lookupProp prevValues k = none) →
      (setStyleGo element styles prevValues).2 =
        prevValues ++ styles.map (fun p => (p.1, getPropertyValue element p.1)) := by
  induction styles with
  | nil =>
      intro element prevValues _ _
      simp [setStyleGo]
  | cons hd rest ih =>
      intro element prevValues hnd hdisj
      obtain ⟨key, value⟩ := hd
      obtain ⟨hkeyrest, hnd'⟩ := List.nodup_cons.mp (by simpa only [List.map_cons] using hnd)
      have hkey : lookupProp prevValues key = none := hdisj key (by simp)
      have hdisj' : ∀ k, k ∈ rest.map Prod.fst →
          lookupProp (recordSet prevValues key (getPropertyValue element key)) k = none := by
        intro k hk
        rw [lookupProp_recordSet]
        have hne : ¬ k = key := fun hc => hkeyrest (by rw [← hc]; exact hk)
        rw [if_neg hne]
        exact hdisj k (by simp [hk])
      simp only [setStyleGo]
      rw [ih _ _ hnd' hdisj', recordSet_absent _ _ _ hkey, List.append_assoc,
        List.singleton_append, List.map_cons]
      congr 2
      apply List.map_congr_left
      intro p hp
      have hne : ¬ p.1 = key := fun hc => hkeyrest (hc ▸ List.mem_map_of_mem Prod.fst hp)
      unfold getPropertyValue
      rw [lookupProp_setPropertyJS, if_neg hne]

/-- C1: applying a StyleMap with setStyle and then running the returned revert
closure restores every property named in the StyleMap to its exact pre-patch
inline value; in particular a property absent before the patch is absent again
after revert (Option equality, so none is restored to none, never to the empty
string). -/
theorem setStyle_revert_roundtrip (element : Style) (styles : List (String × String)) (k : String)
    (hwf : StyleWF element) (hnd : (styles.map Prod.fst).Nodup)
    (hk : k ∈ styles.map Prod.fst) :
    lookupProp (objectAssignStyle (setStyle element styles).1 (setStyle element styles).2) k =
      lookupProp element k := by
  have hsnd : (setStyle element styles).2 =
      styles.map (fun p => (p.1, getPropertyValue element p.1)) := by
    have h := setStyleGo_snd_spec styles element [] hnd (fun _ _ => rfl)
    simpa [setStyle] using h
  rw [hsnd, lookupProp_objectAssignStyle_some _ _ k (getPropertyValue element k)
    (lastWrite_map_nodup styles (getPropertyValue element) k hnd hk)]
  cases hcase : lookupProp element k with
  | none => simp [getPropertyValue, hcase]
  | some v =>
      have hv : v ≠ "" := hwf (k, v) (lookupProp_mem element k v hcase)
      simp [getPropertyValue, hcase, hv]

theorem setStyle_revert_roundtrip_witness :
    StyleWF [("color", "red")] ∧
    (([("margin", "4px"), ("color", "blue"), ("padding", "")] :
        List (String × String)).map Prod.fst).Nodup ∧
    "color" ∈ (([("margin", "4px"), ("color", "blue"), ("padding", "")] :
        List (String × String)).map Prod.fst) ∧
    lookupProp
      (objectAssignStyle
        (setStyle [("color", "red")]
          [("margin", "4px"), ("color", "blue"), ("padding", "")]).1
        (setStyle [("color", "red")]
          [("margin", "4px"), ("color", "blue"), ("padding", "")]).2) "color" =
      lookupProp [("color", "red")] "color" :=
  ⟨by decide, by decide, by decide,
    setStyle_revert_roundtrip _ _ _ (by decide) (by decide) (by decide)⟩

/-- C9: running the revert closure a second time with no intervening changes
reassigns the same captured snapshot, leaving the style in the same state as
after the first run; nothing further accumulates. -/
theorem setStyle_revert_idempotent (element : Style) (styles : List (String × String))
    (k : String) :
    lookupProp
      (objectAssignStyle
        (objectAssignStyle (setStyle element styles).1 (setStyle element styles).2)
        (setStyle element styles).2) k =
      lookupProp
        (objectAssignStyle (setStyle element styles).1 (setStyle element styles).2) k := by
  simp only [lookupProp_objectAssignStyle]
  cases lastWrite (setStyle element styles).2 k <;> simp

theorem setStyleGo_clearing (styles : List (String × String)) :
    ∀ (element : Style) (prevValues : List (String × String)) (k : String),
      (styles.map Prod.fst).Nodup → (k, "") ∈ styles →
      lookupProp (setStyleGo element styles prevValues).1 k = none := by
  induction styles with
  | nil =>
      intro _ _ _ _ h
      simp at h
  | cons hd rest ih =>
      intro element prevValues k hnd hmem
      obtain ⟨key, value⟩ := hd
      obtain ⟨hnotin, hnd'⟩ := List.nodup_cons.mp (by simpa only [List.map_cons] using hnd)
      rcases List.mem_cons.mp hmem with heq | hmem'
      · have hk1 : k = key := congrArg Prod.fst heq
        have hv : ("" : String) = value := congrArg Prod.snd heq
        subst hk1
        subst hv
        simp only [setStyleGo]
        rw [setStyleGo_fst_untouched rest _ _ k hnotin, lookupProp_setPropertyJS]
        simp [jsOrNull]
      · simp only [setStyleGo]
        exact ih _ _ _ hnd' hmem'

/-- C4: a StyleMap entry whose value is the empty clearing sentinel makes
setStyle remove that inline property from the element, rather than store an
empty value. -/
theorem setStyle_clearing_removes (element : Style) (styles : List (String × String))
    (k : String) (hnd : (styles.map Prod.fst).Nodup) (hmem : (k, "") ∈ styles) :
    lookupProp (setStyle element styles).1 k = none :=
  setStyleGo_clearing styles element [] k hnd hmem

theorem setStyle_clearing_removes_witness :
    (([("display", "")] : List (String × String)).map Prod.fst).Nodup ∧
    ("display", "") ∈ ([("display", "")] : List (String × String)) ∧
    lookupProp (setStyle [("display", "block")] [("display", "")]).1 "display" = none :=
  ⟨by decide, by decide, setStyle_clearing_removes _ _ _ (by decide) (by decide)⟩

theorem setStep_variants_agree (st : Style) (key value : String) :
    setPropertyJS st key (jsOrNull value) = idlStyleSet st key (jsOrEmpty value) := by
  by_cases h : value = "" <;> simp [setPropertyJS, idlStyleSet, jsOrNull, jsOrEmpty, h]

theorem setStyleGo_variants_agree (styles : List (String × String)) :
    ∀ (element : Style) (prevValues : List (String × String)),
      setStyleGo element styles prevValues = setStyleTypedGo element styles prevValues := by
  induction styles with
  | nil =>
      intro _ _
      rfl
  | cons hd rest ih =>
      intro element prevValues
      obtain ⟨key, value⟩ := hd
      simp only [setStyleGo, setStyleTypedGo]
      rw [setStep_variants_agree]
      exact ih _ _

/-- C6: the string-keyed and the typed setStyle variants are runtime
equivalent: on every element and StyleMap they produce the same final style
block and the same captured prevValues record, hence the same revert
behavior. -/
theorem setStyle_variants_equivalent (element : Style) (styles : List (String × String)) :
    setStyle element styles = setStyleTyped element styles ∧
    objectAssignStyle (setStyle element styles).1 (setStyle element styles).2 =
      objectAssignStyle (setStyleTyped element styles).1 (setStyleTyped element styles).2 := by
  have h : setStyle element styles = setStyleTyped element styles :=
    setStyleGo_variants_agree styles element []
  exact ⟨h, by rw [h]⟩

/-- C2: with at least one matching node, getMultipleHtmlElements returns
exactly the host query result, which is the list of matching nodes in
document order, and never the null sentinel; with no matching node it
returns the null sentinel, never the empty array. -/
theorem getMultipleHtmlElements_spec {TElement : Type} (els : List TElement)
    (selector : String) (parentSupplied : Bool) (log : Option LogLevel) :
    (els ≠ [] →
      getMultipleHtmlElements (Except.ok els : Except Unit (List TElement)) selector
        parentSupplied log = Except.ok (some els, [])) ∧
    (els = [] →
      ∃ calls, getMultipleHtmlElements (Except.ok els : Except Unit (List TElement)) selector
        parentSupplied log = Except.ok (none, calls)) := by
  constructor
  · intro h
    have hlen : ¬ els.length = 0 := by simpa using h
    simp [getMultipleHtmlElements, hlen]
  · intro h
    subst h
    by_cases hd : log.getD LogLevel.debug = LogLevel.disabled
    · exact ⟨[], by simp [getMultipleHtmlElements, hd]⟩
    · exact ⟨[⟨consoleMethodFor (log.getD LogLevel.debug),
        elementsNotFoundMessage (log.getD LogLevel.debug) selector parentSupplied⟩],
        by simp [getMultipleHtmlElements, hd]⟩

theorem getMultipleHtmlElements_spec_witness :
    getMultipleHtmlElements (Except.ok [3] : Except Unit (List Nat)) ".item" false
      (some LogLevel.error) = Except.ok (some [3], []) ∧
    (∃ calls, getMultipleHtmlElements (Except.ok ([] : List Nat) : Except Unit (List Nat))
      ".item" false (some LogLevel.error) = Except.ok (none, calls)) :=
  ⟨(getMultipleHtmlElements_spec [3] ".item" false (some LogLevel.error)).1 (by decide),
    (getMultipleHtmlElements_spec [] ".item" false (some LogLevel.error)).2 rfl⟩

/-- C3: when no element matches, getHtmlElement returns the null sentinel
and, unless the log level is disabled, emits exactly one console diagnostic
on the channel the configured level selects; when a match exists the element
is returned with no console output. -/
theorem getHtmlElement_spec {TElement : Type} (selector : String) (parentSupplied : Bool)
    (log : LogLevel) (el : TElement) :
    (log ≠ LogLevel.disabled →
      getHtmlElement (Except.ok none : Except Unit (Option TElement)) selector parentSupplied
        (some log) =
      Except.ok (none, [⟨consoleMethodFor log,
        elementNotFoundMessage log selector parentSupplied⟩])) ∧
    (log = LogLevel.disabled →
      getHtmlElement (Except.ok none : Except Unit (Option TElement)) selector parentSupplied
        (some log) = Except.ok (none, [])) ∧
    getHtmlElement (Except.ok (some el) : Except Unit (Option TElement)) selector parentSupplied
      (some log) = Except.ok (some el, []) := by
  refine ⟨?_, ?_, rfl⟩ <;> intro h <;> simp [getHtmlElement, h]

theorem getHtmlElement_spec_witness :
    LogLevel.error ≠ LogLevel.disabled ∧
    getHtmlElement (Except.ok none : Except Unit (Option Nat)) ".submit-btn" false
      (some LogLevel.error) =
      Except.ok (none, [⟨consoleMethodFor LogLevel.error,
        elementNotFoundMessage LogLevel.error ".submit-btn" false⟩]) ∧
    getHtmlElement (Except.ok (some 7) : Except Unit (Option Nat)) ".submit-btn" false
      (some LogLevel.error) = Except.ok (some 7, []) :=
  ⟨by decide, (getHtmlElement_spec ".submit-btn" false LogLevel.error 7).1 (by decide),
    (getHtmlElement_spec ".submit-btn" false LogLevel.error 7).2.2⟩

/-- C7: neither finder throws for a not-found condition (every successful
host query maps to a successful return), and a thrown query failure from a
malformed selector is propagated to the caller unmodified. -/
theorem finders_error_policy {TElement Err : Type} (e : Err) (r : Option TElement)
    (els : List TElement) (selector : String) (parentSupplied : Bool)
    (log : Option LogLevel) :
    (∃ v, getHtmlElement (Except.ok r : Except Err (Option TElement)) selector parentSupplied
      log = Except.ok v) ∧
    getHtmlElement (Except.error e : Except Err (Option TElement)) selector parentSupplied
      log = Except.error e ∧
    (∃ w, getMultipleHtmlElements (Except.ok els : Except Err (List TElement)) selector
      parentSupplied log = Except.ok w) ∧
    getMultipleHtmlElements (Except.error e : Except Err (List TElement)) selector
      parentSupplied log = Except.error e := by
  refine ⟨?_, rfl, ?_, rfl⟩
  · cases r with
    | none =>
        by_cases hd : log.getD LogLevel.debug = LogLevel.disabled
        · exact ⟨(none, []), by simp [getHtmlElement, hd]⟩
        · exact ⟨(none, [⟨consoleMethodFor (log.getD LogLevel.debug),
            elementNotFoundMessage (log.getD LogLevel.debug) selector parentSupplied⟩]),
            by simp [getHtmlElement, hd]⟩
    | some el => exact ⟨(some el, []), rfl⟩
  · by_cases hlen : els.length = 0
    · by_cases hd : log.getD LogLevel.debug = LogLevel.disabled
      · exact ⟨(none, []), by simp [getMultipleHtmlElements, hlen, hd]⟩
      · exact ⟨(none, [⟨consoleMethodFor (log.getD LogLevel.debug),
          elementsNotFoundMessage (log.getD LogLevel.debug) selector parentSupplied⟩]),
          by simp [getMultipleHtmlElements, hlen, hd]⟩
    · exact ⟨(some els, []), by simp [getMultipleHtmlElements, hlen]⟩

/-- C8: with the log level set to the disabled value (false in the source),
neither finder emits any console call, whatever the match outcome. -/
theorem finders_disabled_silent {TElement : Type} (r : Option TElement) (els : List TElement)
    (selector : String) (parentSupplied : Bool) :
    getHtmlElement (Except.ok r : Except Unit (Option TElement)) selector parentSupplied
      (some LogLevel.disabled) = Except.ok (r, []) ∧
    getMultipleHtmlElements (Except.ok els : Except Unit (List TElement)) selector parentSupplied
      (some LogLevel.disabled) =
      Except.ok ((if els.length = 0 then none else some els), []) := by
  constructor
  · cases r <;> simp [getHtmlElement]
  · by_cases hlen : els.length = 0 <;> simp [getMultipleHtmlElements, hlen]

theorem cssStringBody_other (c : Char) (rest : List Char)
    (h1 : ¬ c = '"') (h2 : ¬ c = '\\') :
    cssStringBody (c :: rest) = Option.map (fun p => (c :: p.1, p.2)) (cssStringBody rest) := by
  simp [cssStringBody, h1, h2]

theorem cssStringBody_clean (cs : List Char) (tail : List Char)
    (hq : '"' ∉ cs) (hb : '\\' ∉ cs) :
    cssStringBody (cs ++ '"' :: tail) = some (cs, tail) := by
  induction cs with
  | nil => rfl
  | cons c rest ih =>
      have hcq : ¬ c = '"' := fun hc => hq (by simp [hc])
      have hcb : ¬ c = '\\' := fun hc => hb (by simp [hc])
      have hq' : '"' ∉ rest := fun hc => hq (by simp [hc])
      have hb' : '\\' ∉ rest := fun hc => hb (by simp [hc])
      rw [List.cons_append, cssStringBody_other c _ hcq hcb, ih hq' hb']
      rfl

theorem activeScriptSelector_data (url : String) :
    (activeScriptSelector url).data =
      "script[src=\"".data ++ (url.data ++ '"' :: ']' :: []) := by
  simp [activeScriptSelector, String.data_append]

theorem parseScriptSrcSelector_clean (url : String)
    (hq : '"' ∉ url.data) (hb : '\\' ∉ url.data) :
    parseScriptSrcSelector (activeScriptSelector url) = some url := by
  unfold parseScriptSrcSelector
  rw [activeScriptSelector_data, List.take_left, List.drop_left, if_pos rfl,
    cssStringBody_clean url.data (']' :: []) hq hb]
  rfl

theorem querySelectorScript_clean (doc : List ScriptEl) (url : String)
    (h : parseScriptSrcSelector (activeScriptSelector url) = some url) :
    querySelectorScript doc (activeScriptSelector url) =
      Except.ok (doc.find? (fun s => s.src == url)) := by
  unfold querySelectorScript
  rw [h]

/-- C5 counterexample: on a document holding no matching script element,
getActiveScript emits a console.debug diagnostic.  The delegation is
therefore not performed with logging disabled: the log property is simply
omitted, so the delegate default (debug) applies and a not-found diagnostic
is produced. -/
theorem getActiveScript_logs_on_miss :
    getActiveScript [] "https://example.com/app.js" =
      Except.ok (none, [⟨ConsoleMethod.debug,
        elementNotFoundMessage LogLevel.debug
          (activeScriptSelector "https://example.com/app.js") false⟩]) ∧
    ([⟨ConsoleMethod.debug,
        elementNotFoundMessage LogLevel.debug
          (activeScriptSelector "https://example.com/app.js") false⟩] :
      List ConsoleCall) ≠ [] := by
  constructor
  · rfl
  · simp

/-- C5 amended: getActiveScript takes no caller inputs beyond the host
document and the module URL; for a URL that is safe to interpolate it builds
the selector script[src="URL"] matching a script whose src equals the module
URL exactly, and delegates to getHtmlElement with the log property omitted,
so the delegate default debug logging applies (the caller cannot override
it).  It returns the first matched script element, or null after emitting a
debug diagnostic. -/
theorem getActiveScript_spec (doc : List ScriptEl) (url : String)
    (hq : '"' ∉ url.data) (hb : '\\' ∉ url.data) :
    parseScriptSrcSelector (activeScriptSelector url) = some url ∧
    getActiveScript doc url =
      Except.ok
        (match doc.find? (fun s => s.src == url) with
         | some el => (some el, [])
         | none =>
            (none, [⟨consoleMethodFor LogLevel.debug,
              elementNotFoundMessage LogLevel.debug (activeScriptSelector url) false⟩])) := by
  refine ⟨parseScriptSrcSelector_clean url hq hb, ?_⟩
  unfold getActiveScript
  rw [querySelectorScript_clean doc url (parseScriptSrcSelector_clean url hq hb)]
  cases hfind : doc.find? (fun s => s.src == url) with
  | none => simp [getHtmlElement, consoleMethodFor]
  | some el => simp [getHtmlElement]

theorem getActiveScript_spec_witness :
    '"' ∉ ("https://example.com/app.js" : String).data ∧
    '\\' ∉ ("https://example.com/app.js" : String).data ∧
    (parseScriptSrcSelector (activeScriptSelector "https://example.com/app.js") =
        some "https://example.com/app.js" ∧
      getActiveScript [⟨"https://example.com/app.js"⟩] "https://example.com/app.js" =
        Except.ok
          (match ([⟨"https://example.com/app.js"⟩] : List ScriptEl).find?
              (fun s => s.src == "https://example.com/app.js") with
           | some el => (some el, [])
           | none =>
              (none, [⟨consoleMethodFor LogLevel.debug,
                elementNotFoundMessage LogLevel.debug
                  (activeScriptSelector "https://example.com/app.js") false⟩]))) :=
  ⟨by decide, by decide,
    getActiveScript_spec [⟨"https://example.com/app.js"⟩] "https://example.com/app.js"
      (by decide) (by decide)⟩

/-- C10 counterexample: the module URL consisting of the four code points
a backslash quote b does contain a double-quote character, yet the built
selector is well formed, because the backslash escapes the quote inside the
CSS string token.  The query therefore does not throw: getActiveScript
returns normally (here, the null sentinel plus the default debug
diagnostic). -/
theorem getActiveScript_escaped_quote_no_throw :
    '"' ∈ ("a\\\"b" : String).data ∧
    getActiveScript [] "a\\\"b" ≠ Except.error () ∧
    getActiveScript [] "a\\\"b" =
      Except.ok (none, [⟨ConsoleMethod.debug,
        elementNotFoundMessage LogLevel.debug (activeScriptSelector "a\\\"b") false⟩]) := by
  refine ⟨by decide, ?_, rfl⟩
  have hok : getActiveScript [] "a\\\"b" =
      Except.ok (none, [⟨ConsoleMethod.debug,
        elementNotFoundMessage LogLevel.debug (activeScriptSelector "a\\\"b") false⟩]) := rfl
  rw [hok]
  simp

/-- C10 amended: the module URL is interpolated into the selector string
verbatim, with no escaping, so a double-quote character in the URL enters
the selector raw; and getActiveScript does not guard the query, so whenever
the host query fails on the built selector the failure propagates to the
caller unmodified as a thrown error, never an absent-sentinel return.
Whether a particular quote-containing URL actually malforms the selector is
decided by the full host CSS selector grammar and is not universal: a
backslash-escaped quote yields a well-formed selector (the counterexample),
as does a quote followed by text completing a valid selector list.  The
three conjuncts: the built selector embeds the URL code points verbatim
between the fixed head and tail; getActiveScript is the delegate call
applied to the host query outcome on that selector; a failing outcome
propagates unmodified. -/
theorem getActiveScript_unescaped_propagates (doc : List ScriptEl) (url : String) :
    (activeScriptSelector url).data =
      "script[src=\"".data ++ url.data ++ "\"]".data ∧
    getActiveScript doc url =
      getActiveScriptWith (querySelectorScript doc (activeScriptSelector url)) url ∧
    getActiveScriptWith (Except.error ()) url = Except.error () := by
  refine ⟨?_, rfl, rfl⟩
  simp [activeScriptSelector, String.data_append]

end ZWfStarter
